import Mathlib

/-!
Verification of the KAIM3-week0 repository: a Streamlit EDA dashboard
(`app/main.py`) and a library of plotting helpers (`notebooks/utils.py`).

The embedding models a pandas `Series` as a list of numeric values and a
`DataFrame` as an ordered association list from column names to columns,
mirroring pandas' ordered, dict-like column axis.  Column assignment
(`data[col] = ...`) replaces an existing column in place or appends a new
one at the end, exactly as pandas does.
-/

set_option autoImplicit false

namespace KAIM

/-- A pandas `Series` of numeric values: an ordered column of entries. -/
abbrev Series (α : Type) := List α

/-- Clipping of one value by `Series.clip(lower=lo, upper=hi)`: an entry below `lo` is
raised to `lo`, then an entry above `hi` is cut down to `hi` (the lower
threshold is applied first, as in numpy/pandas). -/
def pandasClipVal {α : Type} [LinearOrder α] (lo hi v : α) : α :=
  if hi < (if v < lo then lo else v) then hi else (if v < lo then lo else v)

/-- Elementwise `Series.clip(lower, upper)` over a column. -/
def Series.clip {α : Type} [LinearOrder α] (s : Series α) (lo hi : α) : Series α :=
  s.map (pandasClipVal lo hi)

/-- A pandas `DataFrame`: an ordered association of column names to columns. -/
abbrev DF (α : Type) := List (String × Series α)

/-- Lookup `m[c]` in an ordered string-keyed map (a DataFrame's column axis,
or a Python `dict`): the first entry named `c`, or a `KeyError`. -/
def DF.lookup {β : Type} : List (String × β) → String → Option β
  | [], _ => none
  | (k, v) :: rest, c => if k = c then some v else DF.lookup rest c

/-- The keys of an ordered string-keyed map, in order. -/
def DF.keys {β : Type} (m : List (String × β)) : List String := m.map Prod.fst

/-- Assignment `m[c] = v` in an ordered string-keyed map: overwrite the entry
where the key exists, otherwise append a new entry at the end.  This is both
pandas column assignment and Python `dict` assignment. -/
def DF.setCol {β : Type} (m : List (String × β)) (c : String) (v : β) :
    List (String × β) :=
  if c ∈ DF.keys m then m.map (fun p => if p.1 = c then (c, v) else p)
  else m ++ [(c, v)]

/-- The clip assignment `data[col] = data[col].clip(lower=min_val, upper=max_val)`
shared by `app/main.py` line 68 and `notebooks/utils.py` line 67; `none` models
the `KeyError` raised when the column is absent. -/
def clipAssign {α : Type} [LinearOrder α] (df : DF α) (c : String) (lo hi : α) :
    Option (DF α) :=
  match DF.lookup df c with
  | none => none
  | some s => some (DF.setCol df c (s.clip lo hi))

/-- The app's "Clip Outliers" button handler (`app/main.py` lines 67-70). -/
def appClip {α : Type} [LinearOrder α] (df : DF α) (c : String) (lo hi : α) :
    Option (DF α) :=
  clipAssign df c lo hi

/-- One iteration of the `for col, (min_val, max_val) in zip(columns, valid_range)`
loop of `clip_outliers`. -/
def clipStep {α : Type} [LinearOrder α] (od : Option (DF α)) (p : String × α × α) :
    Option (DF α) :=
  match od with
  | none => none
  | some df => clipAssign df p.1 p.2.1 p.2.2

/-- The function `clip_outliers(data, columns, valid_range)` from `notebooks/utils.py`
lines 54-68: iterate over `zip(columns, valid_range)` clipping each listed
column to its range, then return the (mutated) DataFrame. -/
def clip_outliers {α : Type} [LinearOrder α] (df : DF α) (cols : List String)
    (ranges : List (α × α)) : Option (DF α) :=
  (cols.zip ranges).foldl clipStep (some df)

/-- A heap of Python DataFrame objects; a reference is an index into it.  This
makes aliasing and in-place mutation expressible: `clip_outliers` receives a
reference, mutates the referenced object, and returns a reference. -/
def Heap (α : Type) := Nat → DF α

/-- The function `clip_outliers` as an operation on the object heap: `r` is the reference
passed as `data`; the loop mutates the referenced DataFrame in place and
`return data` yields the same reference back. -/
def clip_outliersRef {α : Type} [LinearOrder α] (h : Heap α) (r : Nat)
    (cols : List String) (ranges : List (α × α)) : Option (Heap α × Nat) :=
  match clip_outliers (h r) cols ranges with
  | none => none
  | some df' => some (fun r' => if r' = r then df' else h r', r)

/-- pandas `Series.mean()`: arithmetic mean of the entries. -/
noncomputable def mean (s : Series ℝ) : ℝ := s.sum / s.length

/-- pandas `Series.std()`: sample standard deviation with `ddof=1`,
`sqrt(Σ (x - mean)² / (n - 1))`. -/
noncomputable def std (s : Series ℝ) : ℝ :=
  Real.sqrt ((s.map (fun v => (v - mean s) ^ 2)).sum / ((s.length : ℝ) - 1))

/-- The Z-score expression `(data[column] - data[column].mean()) / data[column].std()`
appearing verbatim in `app/main.py` line 134 and `notebooks/utils.py` line 242. -/
noncomputable def zscoreSeries (s : Series ℝ) : Series ℝ :=
  s.map (fun v => (v - mean s) / std s)

/-- The app's Z-Score Analysis computation (`app/main.py` line 134): read the
selected column and normalize it; `none` models the `KeyError` on a missing
column. -/
noncomputable def appZScores (df : DF ℝ) (c : String) : Option (Series ℝ) :=
  match DF.lookup df c with
  | none => none
  | some s => some (zscoreSeries s)

/-- The whole Z-Score Analysis block (`app/main.py` lines 133-140) viewed as a
state transformer on the selected dataset: the scores go into the local
variable `z_scores` and are plotted; no assignment to `selected_dataset`
occurs, so the dataset component is passed through unchanged. -/
noncomputable def appZScoreBlock (df : DF ℝ) (c : String) :
    DF ℝ × Option (Series ℝ) :=
  (df, appZScores df c)

/-- One inner-loop iteration of `calculate_and_plot_z_scores`
(`notebooks/utils.py` line 242): `data[f"{column}_zscore"] = (data[column] -
data[column].mean()) / data[column].std()`. -/
noncomputable def addZScoreCol (df : DF ℝ) (c : String) : Option (DF ℝ) :=
  match DF.lookup df c with
  | none => none
  | some s => some (DF.setCol df (c ++ "_zscore") (zscoreSeries s))

/-- The inner `for j, (data, title) in enumerate(zip(datasets, titles))` loop
of `calculate_and_plot_z_scores` for one column (`notebooks/utils.py`
line 240): `zip` pairs each dataset with a title and truncates at the shorter
list, so only the first `min (len datasets) (len titles)` datasets are
mutated; datasets beyond the titles list are left untouched. -/
noncomputable def addZScoreAll (dss : List (DF ℝ)) (titles : List String)
    (c : String) : Option (List (DF ℝ)) :=
  match dss, titles with
  | [], _ => some []
  | df :: rest, [] => some (df :: rest)
  | df :: rest, _ :: trest =>
    match addZScoreCol df c, addZScoreAll rest trest c with
    | some df', some rest' => some (df' :: rest')
    | _, _ => none

/-- The function `calculate_and_plot_z_scores(datasets, columns, titles)` from
`notebooks/utils.py` lines 226-251 restricted to its data effect: for each
column (outer loop), add a `"{column}_zscore"` column to each dataset the
inner `zip(datasets, titles)` loop reaches. -/
noncomputable def calculate_and_plot_z_scores (dss : List (DF ℝ))
    (cols : List String) (titles : List String) : Option (List (DF ℝ)) :=
  match cols with
  | [] => some dss
  | c :: rest =>
    match addZScoreAll dss titles c with
    | none => none
    | some dss' => calculate_and_plot_z_scores dss' rest titles

/-- Pearson correlation of two columns, as computed by `DataFrame.corr()`:
`Σ (x-x̄)(y-ȳ) / sqrt(Σ (x-x̄)² · Σ (y-ȳ)²)`. -/
noncomputable def pearson (x y : Series ℝ) : ℝ :=
  ((x.zip y).map (fun p => (p.1 - mean x) * (p.2 - mean y))).sum /
    Real.sqrt ((x.map (fun v => (v - mean x) ^ 2)).sum *
      (y.map (fun v => (v - mean y) ^ 2)).sum)

/-- The correlation matrix `selected_dataset[correlation_columns].corr()` (`app/main.py` line 92). -/
noncomputable def corrMatrix (df : DF ℝ) (cols : List String) :
    List (List ℝ) :=
  cols.map (fun c₁ => cols.map (fun c₂ =>
    match DF.lookup df c₁, DF.lookup df c₂ with
    | some s₁, some s₂ => pearson s₁ s₂
    | _, _ => 0))

/-- The summary `selected_dataset.describe()` (`app/main.py` lines 46 and 70), restricted
to count/mean/std per column. -/
noncomputable def describeDF (df : DF ℝ) : List (String × ℝ × ℝ × ℝ) :=
  df.map (fun p => (p.1, ((p.2.length : ℝ), mean p.2, std p.2)))

/-- Python truthiness of a Streamlit selectbox value: `None` and the empty
string are falsy, any other string is truthy. -/
def truthyStr : Option String → Bool
  | none => false
  | some s => s != ""

/-- The chart types offered by the app, in source order
(`app/main.py` lines 52-163). -/
inductive Chart where
  | boxplot
  | timeSeries
  | corrHeatmap
  | windrose
  | histogram
  | tempHumidity
  | zscoreChart
  | bubble
  deriving DecidableEq

/-- The fixed order in which the chart sections appear in the script. -/
def chartOrder : List Chart :=
  [Chart.boxplot, Chart.timeSeries, Chart.corrHeatmap, Chart.windrose,
   Chart.histogram, Chart.tempHumidity, Chart.zscoreChart, Chart.bubble]

/-- The values of the column-selection widgets of the app, one field per
widget (`st.selectbox` values as `Option String`, the correlation
`st.multiselect` as `List String`). -/
structure AppSelections where
  outlierCol : Option String
  tsCol : Option String
  timestampCol : Option String
  corrCols : List String
  windSpeedCol : Option String
  windDirCol : Option String
  histCol : Option String
  tempCol : Option String
  humidityCol : Option String
  zCol : Option String
  xCol : Option String
  yCol : Option String
  sizeCol : Option String
  hueCol : Option String
  deriving DecidableEq

/-- The charts actually rendered for given widget values, with their guards
transcribed from the `if` statements of `app/main.py` lines 57, 80, 90, 100,
111, 121, 133 and 149, in source order. -/
def renderedCharts (sel : AppSelections) : List Chart :=
  (if truthyStr sel.outlierCol then [Chart.boxplot] else []) ++
  (if truthyStr sel.tsCol && truthyStr sel.timestampCol then [Chart.timeSeries]
   else []) ++
  (if !sel.corrCols.isEmpty then [Chart.corrHeatmap] else []) ++
  (if truthyStr sel.windSpeedCol && truthyStr sel.windDirCol then
     [Chart.windrose] else []) ++
  (if truthyStr sel.histCol then [Chart.histogram] else []) ++
  (if truthyStr sel.tempCol && truthyStr sel.humidityCol then
     [Chart.tempHumidity] else []) ++
  (if truthyStr sel.zCol then [Chart.zscoreChart] else []) ++
  (if truthyStr sel.xCol && truthyStr sel.yCol && truthyStr sel.sizeCol &&
      truthyStr sel.hueCol then [Chart.bubble] else [])

/-- Modelled from the spec: a chart's rendering condition is that "every one
of its column-selection widgets has a selected (truthy) value", widget per
chart as in the app's widget list. -/
def widgetsTruthy (sel : AppSelections) : Chart → Bool
  | Chart.boxplot => truthyStr sel.outlierCol
  | Chart.timeSeries => truthyStr sel.tsCol && truthyStr sel.timestampCol
  | Chart.corrHeatmap => !sel.corrCols.isEmpty
  | Chart.windrose => truthyStr sel.windSpeedCol && truthyStr sel.windDirCol
  | Chart.histogram => truthyStr sel.histCol
  | Chart.tempHumidity => truthyStr sel.tempCol && truthyStr sel.humidityCol
  | Chart.zscoreChart => truthyStr sel.zCol
  | Chart.bubble => truthyStr sel.xCol && truthyStr sel.yCol &&
      truthyStr sel.sizeCol && truthyStr sel.hueCol

/-- The message `st.success(f"Successfully loaded ...")` (`app/main.py` line 26). -/
def successMsg (n : String) : String := "Successfully loaded " ++ n

/-- The message `st.error(f"Error loading ...")` (`app/main.py` line 28). -/
def errorMsg (n e : String) : String := "Error loading " ++ n ++ ": " ++ e

/-- The `for uploaded_file in uploaded_files` loop of `app/main.py` lines
22-28 with its accumulated state: the `datasets` dict and the displayed
messages.  `pd.read_csv` is external, so a file carries the parse outcome it
would produce. -/
def loadLoop {α : Type} (acc : List (String × DF α) × List String) :
    List (String × Except String (DF α)) → List (String × DF α) × List String
  | [] => acc
  | f :: rest =>
    match f.2 with
    | Except.ok d =>
        loadLoop (DF.setCol acc.1 f.1 d, acc.2 ++ [successMsg f.1]) rest
    | Except.error e => loadLoop (acc.1, acc.2 ++ [errorMsg f.1 e]) rest

/-- The datasets dict and messages produced by the upload loop, starting from
the empty dict `datasets = {}` (`app/main.py` line 21). -/
def loadDatasets {α : Type} (files : List (String × Except String (DF α))) :
    List (String × DF α) × List String :=
  loadLoop ([], []) files

/-- A Streamlit `st.selectbox`: when the option list is nonempty some option
is always selected (the user's pick, falling back to the default first
option); with no options the value is `None`. -/
def selectOpt (opts : List String) (i : Nat) : Option String :=
  match opts.get? i with
  | some s => some s
  | none => opts.head?

/-- A complete input to one run of the script: the uploaded files with their
parse outcomes, the dataset pick, all widget selections, and the state of the
Clip Outliers form. -/
structure AppInput (α : Type) where
  files : List (String × Except String (DF α))
  datasetChoice : Nat
  sel : AppSelections
  clipPressed : Bool
  minVal : α
  maxVal : α

/-- The value `selected_dataset_name` (`app/main.py` lines 31-33): a selectbox over
`list(datasets.keys())`. -/
def selectedName {α : Type} (inp : AppInput α) : Option String :=
  selectOpt (DF.keys (loadDatasets inp.files).1) inp.datasetChoice

/-- The stages of the script, in source order: the upload widget producing
files, the parse loop, the dataset selection, the Clip Outliers action, the
chart-type/column picking widgets, and the rendering of charts. -/
inductive Stage where
  | upload
  | parse
  | select
  | clip
  | pick
  | render
  deriving DecidableEq

/-- The canonical pipeline order of the script's stages. -/
def pipelineOrder : List Stage :=
  [Stage.upload, Stage.parse, Stage.select, Stage.clip, Stage.pick,
   Stage.render]

/-- The stages one top-to-bottom run of `app/main.py` actually reaches, read
off the script's nesting: everything is guarded by `if uploaded_files:`
(line 20), the dataset-dependent work by `if selected_dataset_name:`
(line 35), the clip by the column choice and the button (line 67), and a
render happens when some chart's guard holds. -/
def trace {α : Type} (inp : AppInput α) : List Stage :=
  if inp.files.isEmpty then []
  else
    Stage.upload :: Stage.parse ::
      (if truthyStr (selectedName inp) then
        Stage.select ::
          ((if truthyStr inp.sel.outlierCol && inp.clipPressed then
              [Stage.clip] else []) ++
           [Stage.pick] ++
           (if (renderedCharts inp.sel).isEmpty then [] else [Stage.render]))
      else [])

/-- The computed artifacts of one run of the script that the UI displays. -/
structure AppOutput where
  datasets : List (String × DF ℝ)
  messages : List String
  selName : Option String
  finalDataset : Option (DF ℝ)
  summary : Option (List (String × ℝ × ℝ × ℝ))
  zScores : Option (Series ℝ)
  corr : Option (List (List ℝ))

/-- One top-to-bottom run of `app/main.py` as a function of its input: parse
the uploads, select a dataset, optionally clip the chosen column, and compute
the summary, Z-scores and correlation artifacts on the resulting dataset. -/
noncomputable def runApp (inp : AppInput ℝ) : AppOutput :=
  let ds := (loadDatasets inp.files).1
  let msgs := (loadDatasets inp.files).2
  match selectOpt (DF.keys ds) inp.datasetChoice with
  | none =>
      { datasets := ds, messages := msgs, selName := none,
        finalDataset := none, summary := none, zScores := none, corr := none }
  | some n =>
      if n = "" then
        { datasets := ds, messages := msgs, selName := some n,
          finalDataset := none, summary := none, zScores := none,
          corr := none }
      else
        match DF.lookup ds n with
        | none =>
            { datasets := ds, messages := msgs, selName := some n,
              finalDataset := none, summary := none, zScores := none,
              corr := none }
        | some df0 =>
            let df1 :=
              match inp.sel.outlierCol, inp.clipPressed with
              | some c, true => (appClip df0 c inp.minVal inp.maxVal).getD df0
              | _, _ => df0
            { datasets := ds
              messages := msgs
              selName := some n
              finalDataset := some df1
              summary := some (describeDF df1)
              zScores :=
                match inp.sel.zCol with
                | some c => appZScores df1 c
                | none => none
              corr := some (corrMatrix df1 inp.sel.corrCols) }

/-- A Streamlit rerun executes the script from the top.  `app/main.py` uses
no `st.session_state` and no `@st.cache`/`@st.cache_data`, so nothing from a
previous run's output is read: the rerun is `runApp` of the current input,
ignoring the previous output. -/
noncomputable def rerunApp (_prev : Option AppOutput) (inp : AppInput ℝ) :
    AppOutput :=
  runApp inp

/-- A concrete single-object heap used to exercise `clip_outliersRef`. -/
def heapW : Heap ℚ := fun _ => [("x", [(5 : ℚ)])]

/-- The heap `heapW` after clipping column "x" of object 0 to `[0, 3]`. -/
def heapW' : Heap ℚ := fun r' => if r' = 0 then [("x", [(3 : ℚ)])] else heapW r'

/-- A concrete run input used to exercise the pipeline trace: one file that
parses, the outlier column and histogram column selected, the clip button
pressed. -/
def inpW6 : AppInput ℚ :=
  ⟨[("a.csv", Except.ok [("x", [(1 : ℚ)])])], 0,
   ⟨some "x", none, none, [], none, none, some "x", none, none, none, none,
    none, none, none⟩,
   true, 0, 3⟩

/-- A concrete run input over ℝ for the determinism claim. -/
noncomputable def inpW7 : AppInput ℝ :=
  ⟨[("a.csv", Except.ok [("x", [(1 : ℝ)])])], 0,
   ⟨some "x", none, none, [], none, none, some "x", none, none, none, none,
    none, none, none⟩,
   true, 0, 3⟩

/-- A stale previous-run output, to show reruns ignore it. -/
def outW : AppOutput := ⟨[], [], none, none, none, none, none⟩

section ClipLemmas

variable {α : Type} [LinearOrder α]

theorem pandasClipVal_eq_clamp (lo hi v : α) :
    pandasClipVal lo hi v = min (max v lo) hi := by
  unfold pandasClipVal
  rcases lt_or_ge v lo with h1 | h1
  · rw [if_pos h1, max_eq_right h1.le]
    rcases lt_or_ge hi lo with h2 | h2
    · rw [if_pos h2, min_eq_right h2.le]
    · rw [if_neg (not_lt.mpr h2), min_eq_left h2]
  · rw [if_neg (not_lt.mpr h1), max_eq_left h1]
    rcases lt_or_ge hi v with h2 | h2
    · rw [if_pos h2, min_eq_right h2.le]
    · rw [if_neg (not_lt.mpr h2), min_eq_left h2]

theorem pandasClipVal_of_mem (lo hi v : α) (h1 : lo ≤ v) (h2 : v ≤ hi) :
    pandasClipVal lo hi v = v := by
  rw [pandasClipVal_eq_clamp, max_eq_left h1, min_eq_left h2]

theorem clamp_idem (lo hi v : α) :
    min (max (min (max v lo) hi) lo) hi = min (max v lo) hi := by
  rcases le_total lo hi with h | h
  · have hlo : lo ≤ min (max v lo) hi := le_min (le_max_right v lo) h
    rw [max_eq_left hlo, min_eq_left (min_le_right (max v lo) hi)]
  · have hhi : min (max v lo) hi = hi :=
      min_eq_right (le_trans h (le_max_right v lo))
    rw [hhi, max_eq_right h, min_eq_right h]

theorem pandasClipVal_idem (lo hi v : α) :
    pandasClipVal lo hi (pandasClipVal lo hi v) = pandasClipVal lo hi v := by
  rw [pandasClipVal_eq_clamp, pandasClipVal_eq_clamp, clamp_idem]

theorem Series.clip_get (s : Series α) (lo hi : α) (i : Nat) :
    (s.clip lo hi).get? i = (s.get? i).map (pandasClipVal lo hi) :=
  List.get?_map _ _ _

theorem Series.clip_length (s : Series α) (lo hi : α) :
    (s.clip lo hi).length = s.length :=
  List.length_map _ _

end ClipLemmas

section DFLemmas

variable {β : Type}

theorem DF.lookup_eq_none_of_not_mem {df : List (String × β)} {c : String}
    (h : c ∉ DF.keys df) : DF.lookup df c = none := by
  induction df with
  | nil => rfl
  | cons p rest ih =>
    obtain ⟨k, s⟩ := p
    simp only [DF.keys, List.map_cons, List.mem_cons, not_or] at h
    have hk : ¬(k = c) := fun hk => h.1 hk.symm
    simp only [DF.lookup, if_neg hk]
    exact ih h.2

theorem DF.mem_keys_of_lookup {df : List (String × β)} {c : String} {s : β}
    (h : DF.lookup df c = some s) : c ∈ DF.keys df := by
  by_contra hmem
  rw [DF.lookup_eq_none_of_not_mem hmem] at h
  exact Option.noConfusion h

theorem DF.lookup_append (df df₂ : List (String × β)) (c : String) :
    DF.lookup (df ++ df₂) c =
      match DF.lookup df c with
      | some s => some s
      | none => DF.lookup df₂ c := by
  induction df with
  | nil => rfl
  | cons p rest ih =>
    obtain ⟨k, s⟩ := p
    by_cases hk : k = c
    · simp [DF.lookup, hk]
    · simpa [DF.lookup, hk] using ih

theorem DF.lookup_map_set_self {df : List (String × β)} {c : String} (v : β)
    (h : c ∈ DF.keys df) :
    DF.lookup (df.map (fun p => if p.1 = c then (c, v) else p)) c = some v := by
  induction df with
  | nil => simp [DF.keys] at h
  | cons p rest ih =>
    obtain ⟨k, s⟩ := p
    simp only [List.map_cons]
    by_cases hk : k = c
    · subst hk
      rw [if_pos rfl]
      simp [DF.lookup]
    · have hrest : c ∈ DF.keys rest := by
        simp only [DF.keys, List.map_cons, List.mem_cons] at h
        exact h.resolve_left (fun hc => hk hc.symm)
      rw [if_neg hk]
      simp only [DF.lookup, if_neg hk]
      exact ih hrest

theorem DF.lookup_map_set_ne {df : List (String × β)} {c c' : String} (v : β)
    (h : c' ≠ c) :
    DF.lookup (df.map (fun p => if p.1 = c then (c, v) else p)) c' =
      DF.lookup df c' := by
  induction df with
  | nil => rfl
  | cons p rest ih =>
    obtain ⟨k, s⟩ := p
    simp only [List.map_cons]
    by_cases hk : k = c
    · subst hk
      rw [if_pos rfl]
      have hck : ¬(k = c') := fun hc => h hc.symm
      simp only [DF.lookup, if_neg hck]
      exact ih
    · rw [if_neg hk]
      by_cases hk' : k = c'
      · simp only [DF.lookup, if_pos hk']
      · simp only [DF.lookup, if_neg hk']
        exact ih

theorem DF.lookup_setCol_self (df : List (String × β)) (c : String) (v : β) :
    DF.lookup (DF.setCol df c v) c = some v := by
  unfold DF.setCol
  by_cases h : c ∈ DF.keys df
  · rw [if_pos h]
    exact DF.lookup_map_set_self v h
  · rw [if_neg h, DF.lookup_append, DF.lookup_eq_none_of_not_mem h]
    simp [DF.lookup]

theorem DF.lookup_setCol_ne (df : List (String × β)) {c c' : String} (v : β)
    (h : c' ≠ c) : DF.lookup (DF.setCol df c v) c' = DF.lookup df c' := by
  unfold DF.setCol
  by_cases hmem : c ∈ DF.keys df
  · rw [if_pos hmem]
    exact DF.lookup_map_set_ne v h
  · rw [if_neg hmem, DF.lookup_append]
    have hcc : ¬(c = c') := fun hc => h hc.symm
    cases hc : DF.lookup df c' with
    | some s => rfl
    | none => simp [DF.lookup, hcc]

theorem DF.keys_map_set (df : List (String × β)) (c : String) (v : β) :
    DF.keys (df.map (fun p => if p.1 = c then (c, v) else p)) = DF.keys df := by
  unfold DF.keys
  rw [List.map_map]
  apply List.map_congr_left
  intro p _
  by_cases hp : p.1 = c
  · simp [hp]
  · simp [hp]

theorem DF.keys_setCol_of_mem {df : List (String × β)} {c : String} (v : β)
    (h : c ∈ DF.keys df) : DF.keys (DF.setCol df c v) = DF.keys df := by
  unfold DF.setCol
  rw [if_pos h]
  exact DF.keys_map_set df c v

theorem DF.keys_setCol_of_not_mem {df : List (String × β)} {c : String} (v : β)
    (h : c ∉ DF.keys df) : DF.keys (DF.setCol df c v) = DF.keys df ++ [c] := by
  unfold DF.setCol
  rw [if_neg h]
  simp [DF.keys]

theorem DF.nodup_keys_setCol {df : List (String × β)} {c : String} (v : β)
    (h : (DF.keys df).Nodup) : (DF.keys (DF.setCol df c v)).Nodup := by
  by_cases hmem : c ∈ DF.keys df
  · rw [DF.keys_setCol_of_mem v hmem]
    exact h
  · rw [DF.keys_setCol_of_not_mem v hmem]
    simp [List.nodup_append, h, hmem]

theorem DF.map_set_eq_self {df : List (String × β)} {c : String} (w : β)
    (h : c ∉ DF.keys df) :
    df.map (fun p => if p.1 = c then (c, w) else p) = df := by
  induction df with
  | nil => rfl
  | cons p rest ih =>
    obtain ⟨k, s⟩ := p
    simp only [DF.keys, List.map_cons, List.mem_cons, not_or] at h
    simp only [List.map_cons]
    rw [ih h.2]
    have hk : ¬((k, s).1 = c) := fun hk => h.1 hk.symm
    rw [if_neg hk]

theorem DF.setCol_setCol (df : List (String × β)) (c : String) (v w : β) :
    DF.setCol (DF.setCol df c v) c w = DF.setCol df c w := by
  by_cases h : c ∈ DF.keys df
  · have e1 : DF.setCol df c v = df.map (fun p => if p.1 = c then (c, v) else p) := by
      unfold DF.setCol
      rw [if_pos h]
    have e2 : DF.setCol df c w = df.map (fun p => if p.1 = c then (c, w) else p) := by
      unfold DF.setCol
      rw [if_pos h]
    have h2 : c ∈ DF.keys (df.map (fun p => if p.1 = c then (c, v) else p)) := by
      rw [DF.keys_map_set]
      exact h
    have e3 : DF.setCol (df.map (fun p => if p.1 = c then (c, v) else p)) c w =
        (df.map (fun p => if p.1 = c then (c, v) else p)).map
          (fun p => if p.1 = c then (c, w) else p) := by
      unfold DF.setCol
      rw [if_pos h2]
    rw [e1, e3, e2, List.map_map]
    apply List.map_congr_left
    intro p _
    by_cases hp : p.1 = c
    · simp [hp]
    · simp [hp]
  · have e1 : DF.setCol df c v = df ++ [(c, v)] := by
      unfold DF.setCol
      rw [if_neg h]
    have h2 : c ∈ DF.keys (df ++ [(c, v)]) := by
      simp [DF.keys]
    have e3 : DF.setCol (df ++ [(c, v)]) c w =
        (df ++ [(c, v)]).map (fun p => if p.1 = c then (c, w) else p) := by
      unfold DF.setCol
      rw [if_pos h2]
    have e4 : DF.setCol df c w = df ++ [(c, w)] := by
      unfold DF.setCol
      rw [if_neg h]
    rw [e1, e3, e4, List.map_append, DF.map_set_eq_self w h]
    simp

theorem DF.lookup_isSome_of_mem {df : List (String × β)} {c : String} (h : c ∈ DF.keys df) :
    ∃ s, DF.lookup df c = some s := by
  induction df with
  | nil => simp [DF.keys] at h
  | cons p rest ih =>
    obtain ⟨k, s⟩ := p
    by_cases hk : k = c
    · exact ⟨s, by simp [DF.lookup, hk]⟩
    · have hr : c ∈ DF.keys rest := by
        simp only [DF.keys, List.map_cons, List.mem_cons] at h
        exact h.resolve_left fun hc => hk hc.symm
      obtain ⟨s', hs'⟩ := ih hr
      exact ⟨s', by simp only [DF.lookup, if_neg hk]; exact hs'⟩

end DFLemmas

section ClipOutliersLemmas

variable {α : Type} [LinearOrder α]

theorem foldl_clipStep_none (l : List (String × α × α)) :
    l.foldl clipStep none = none := by
  induction l with
  | nil => rfl
  | cons p l ih => simpa [clipStep] using ih

theorem map_fst_zip_sublist {β γ : Type} (l₁ : List β) (l₂ : List γ) :
    ((l₁.zip l₂).map Prod.fst).Sublist l₁ := by
  induction l₁ generalizing l₂ with
  | nil => simp
  | cons a l ih =>
    cases l₂ with
    | nil => simp
    | cons b l₂ => simpa using (ih l₂).cons₂ a

theorem foldl_clipStep_spec (l : List (String × α × α)) (df df' : DF α)
    (hnod : (DF.keys df).Nodup) (hl : (l.map Prod.fst).Nodup)
    (h : l.foldl clipStep (some df) = some df') :
    (∀ c lo hi, (c, (lo, hi)) ∈ l →
       ∃ s, DF.lookup df c = some s ∧
         DF.lookup df' c = some (Series.clip s lo hi)) ∧
    (∀ c, c ∉ l.map Prod.fst → DF.lookup df' c = DF.lookup df c) ∧
    DF.keys df' = DF.keys df := by
  induction l generalizing df with
  | nil =>
    cases h
    exact ⟨fun c lo hi hc => absurd hc (List.not_mem_nil _),
           fun c _ => rfl, rfl⟩
  | cons p l ih =>
    obtain ⟨c₀, lo₀, hi₀⟩ := p
    rw [List.foldl_cons] at h
    cases hlk : DF.lookup df c₀ with
    | none =>
      rw [show clipStep (some df) (c₀, lo₀, hi₀) = none from by
            simp [clipStep, clipAssign, hlk]] at h
      rw [foldl_clipStep_none] at h
      exact Option.noConfusion h
    | some s₀ =>
      rw [show clipStep (some df) (c₀, lo₀, hi₀) =
            some (DF.setCol df c₀ (Series.clip s₀ lo₀ hi₀)) from by
            simp [clipStep, clipAssign, hlk]] at h
      have hmem₀ : c₀ ∈ DF.keys df := DF.mem_keys_of_lookup hlk
      have hkeys₁ : DF.keys (DF.setCol df c₀ (Series.clip s₀ lo₀ hi₀)) = DF.keys df :=
        DF.keys_setCol_of_mem _ hmem₀
      have hnod₁ : (DF.keys (DF.setCol df c₀ (Series.clip s₀ lo₀ hi₀))).Nodup := by
        rw [hkeys₁]
        exact hnod
      simp only [List.map_cons, List.nodup_cons] at hl
      obtain ⟨hc₀l, hl'⟩ := hl
      obtain ⟨P1, P2, P3⟩ := ih _ hnod₁ hl' h
      refine ⟨?_, ?_, P3.trans hkeys₁⟩
      · intro c lo hi hc
        rcases List.mem_cons.mp hc with hc | hc
        · injection hc with h1 h23
          injection h23 with h2 h3
          subst h1
          subst h2
          subst h3
          refine ⟨s₀, hlk, ?_⟩
          rw [P2 _ hc₀l]
          exact DF.lookup_setCol_self df _ _
        · have hcmem : c ∈ l.map Prod.fst :=
            List.mem_map_of_mem Prod.fst hc
          have hne : c ≠ c₀ := fun e => hc₀l (e ▸ hcmem)
          obtain ⟨s, hs1, hs2⟩ := P1 c lo hi hc
          rw [DF.lookup_setCol_ne df _ hne] at hs1
          exact ⟨s, hs1, hs2⟩
      · intro c hcn
        simp only [List.map_cons, List.mem_cons, not_or] at hcn
        rw [P2 c hcn.2]
        exact DF.lookup_setCol_ne df _ hcn.1

/-- Central specification of `clip_outliers`: on success with duplicate-free
column labels, every zipped column is replaced by its clipped version, every
other column is untouched, and the column labels are unchanged. -/
theorem clip_outliers_spec (df df' : DF α) (cols : List String)
    (ranges : List (α × α)) (hnod : (DF.keys df).Nodup) (hcols : cols.Nodup)
    (h : clip_outliers df cols ranges = some df') :
    (∀ c lo hi, (c, (lo, hi)) ∈ cols.zip ranges →
       ∃ s, DF.lookup df c = some s ∧
         DF.lookup df' c = some (Series.clip s lo hi)) ∧
    (∀ c, c ∉ (cols.zip ranges).map Prod.fst →
       DF.lookup df' c = DF.lookup df c) ∧
    DF.keys df' = DF.keys df :=
  foldl_clipStep_spec _ df df' hnod
    (List.Nodup.sublist (map_fst_zip_sublist cols ranges) hcols) h

theorem foldl_clipStep_not_mem (l : List (String × α × α)) (df df' : DF α)
    (h : l.foldl clipStep (some df) = some df') (c : String)
    (hc : c ∉ l.map Prod.fst) : DF.lookup df' c = DF.lookup df c := by
  induction l generalizing df with
  | nil =>
    cases h
    rfl
  | cons p l ih =>
    obtain ⟨c₀, lo₀, hi₀⟩ := p
    simp only [List.map_cons, List.mem_cons, not_or] at hc
    rw [List.foldl_cons] at h
    cases hlk : DF.lookup df c₀ with
    | none =>
      rw [show clipStep (some df) (c₀, lo₀, hi₀) = none from by
            simp [clipStep, clipAssign, hlk]] at h
      rw [foldl_clipStep_none] at h
      exact Option.noConfusion h
    | some s₀ =>
      rw [show clipStep (some df) (c₀, lo₀, hi₀) =
            some (DF.setCol df c₀ (Series.clip s₀ lo₀ hi₀)) from by
            simp [clipStep, clipAssign, hlk]] at h
      rw [ih _ h hc.2]
      exact DF.lookup_setCol_ne df _ hc.1

theorem foldl_clipStep_keys (l : List (String × α × α)) (df df' : DF α)
    (h : l.foldl clipStep (some df) = some df') : DF.keys df' = DF.keys df := by
  induction l generalizing df with
  | nil =>
    cases h
    rfl
  | cons p l ih =>
    obtain ⟨c₀, lo₀, hi₀⟩ := p
    rw [List.foldl_cons] at h
    cases hlk : DF.lookup df c₀ with
    | none =>
      rw [show clipStep (some df) (c₀, lo₀, hi₀) = none from by
            simp [clipStep, clipAssign, hlk]] at h
      rw [foldl_clipStep_none] at h
      exact Option.noConfusion h
    | some s₀ =>
      rw [show clipStep (some df) (c₀, lo₀, hi₀) =
            some (DF.setCol df c₀ (Series.clip s₀ lo₀ hi₀)) from by
            simp [clipStep, clipAssign, hlk]] at h
      rw [ih _ h]
      exact DF.keys_setCol_of_mem _ (DF.mem_keys_of_lookup hlk)

theorem foldl_clipStep_length (l : List (String × α × α)) (df df' : DF α)
    (h : l.foldl clipStep (some df) = some df') :
    ∀ c s s', DF.lookup df c = some s → DF.lookup df' c = some s' →
      s'.length = s.length := by
  induction l generalizing df with
  | nil =>
    cases h
    intro c s s' h1 h2
    rw [h1] at h2
    cases h2
    rfl
  | cons p l ih =>
    obtain ⟨c₀, lo₀, hi₀⟩ := p
    rw [List.foldl_cons] at h
    cases hlk : DF.lookup df c₀ with
    | none =>
      rw [show clipStep (some df) (c₀, lo₀, hi₀) = none from by
            simp [clipStep, clipAssign, hlk]] at h
      rw [foldl_clipStep_none] at h
      exact Option.noConfusion h
    | some s₀ =>
      rw [show clipStep (some df) (c₀, lo₀, hi₀) =
            some (DF.setCol df c₀ (Series.clip s₀ lo₀ hi₀)) from by
            simp [clipStep, clipAssign, hlk]] at h
      intro c s s' h1 h2
      by_cases hc : c = c₀
      · subst hc
        have hmid : DF.lookup (DF.setCol df c (Series.clip s₀ lo₀ hi₀)) c =
            some (Series.clip s₀ lo₀ hi₀) := DF.lookup_setCol_self df c _
        have := ih _ h c _ s' hmid h2
        rw [this, Series.clip_length]
        rw [hlk] at h1
        cases h1
        rfl
      · have hmid : DF.lookup (DF.setCol df c₀ (Series.clip s₀ lo₀ hi₀)) c =
            some s := by
          rw [DF.lookup_setCol_ne df _ hc]
          exact h1
        exact ih _ h c s s' hmid h2

theorem foldl_clipStep_isSome (l : List (String × α × α)) (df : DF α)
    (h : ∀ c, c ∈ l.map Prod.fst → c ∈ DF.keys df) :
    ∃ df', l.foldl clipStep (some df) = some df' := by
  induction l generalizing df with
  | nil => exact ⟨df, rfl⟩
  | cons p l ih =>
    obtain ⟨c₀, lo₀, hi₀⟩ := p
    have hc₀ : c₀ ∈ DF.keys df := h c₀ (by simp)
    obtain ⟨s₀, hs₀⟩ := DF.lookup_isSome_of_mem hc₀
    rw [List.foldl_cons,
        show clipStep (some df) (c₀, lo₀, hi₀) =
          some (DF.setCol df c₀ (Series.clip s₀ lo₀ hi₀)) from by
          simp [clipStep, clipAssign, hs₀]]
    apply ih
    intro c hc
    rw [DF.keys_setCol_of_mem _ hc₀]
    exact h c (by simp [hc])

theorem zip_eq_zip_take {β γ : Type} (l₁ : List β) (l₂ : List γ) :
    l₁.zip l₂ = (l₁.take (min l₁.length l₂.length)).zip
      (l₂.take (min l₁.length l₂.length)) := by
  induction l₁ generalizing l₂ with
  | nil => simp
  | cons a l ih =>
    cases l₂ with
    | nil => simp
    | cons b l₂ =>
      simp only [List.zip_cons_cons, List.length_cons]
      rw [show min (l.length + 1) (l₂.length + 1) = min l.length l₂.length + 1 by
            omega]
      simp only [List.take_succ_cons, List.zip_cons_cons]
      rw [← ih]

end ClipOutliersLemmas

section ModelLemmas

theorem Series.clip_idem {α : Type} [LinearOrder α] (s : Series α) (lo hi : α) :
    Series.clip (Series.clip s lo hi) lo hi = Series.clip s lo hi := by
  unfold Series.clip
  rw [List.map_map]
  apply List.map_congr_left
  intro v _
  simp only [Function.comp_apply, pandasClipVal_idem]

theorem DF.mem_of_lookup {β : Type} {m : List (String × β)} {c : String}
    {v : β} (h : DF.lookup m c = some v) : (c, v) ∈ m := by
  induction m with
  | nil => exact Option.noConfusion h
  | cons p rest ih =>
    obtain ⟨k, w⟩ := p
    by_cases hk : k = c
    · subst hk
      rw [show DF.lookup ((k, w) :: rest) k = some w from by
            simp [DF.lookup]] at h
      cases h
      exact List.mem_cons_self _ _
    · simp only [DF.lookup, if_neg hk] at h
      exact List.mem_cons_of_mem _ (ih h)

theorem DF.mem_setCol {β : Type} {m : List (String × β)} {k : String} {v : β}
    {p : String × β} (h : p ∈ DF.setCol m k v) : p ∈ m ∨ p = (k, v) := by
  unfold DF.setCol at h
  by_cases hmem : k ∈ DF.keys m
  · rw [if_pos hmem] at h
    obtain ⟨q, hq, hpq⟩ := List.mem_map.mp h
    by_cases hq1 : q.1 = k
    · right
      rw [← hpq, if_pos hq1]
    · left
      rw [← hpq, if_neg hq1]
      exact hq
  · rw [if_neg hmem] at h
    rcases List.mem_append.mp h with h | h
    · exact Or.inl h
    · right
      simpa using h

theorem DF.not_mem_keys_setCol {β : Type} {m : List (String × β)}
    {k c : String} (v : β) (hck : c ≠ k) (hc : c ∉ DF.keys m) :
    c ∉ DF.keys (DF.setCol m k v) := by
  by_cases hmem : k ∈ DF.keys m
  · rw [DF.keys_setCol_of_mem v hmem]
    exact hc
  · rw [DF.keys_setCol_of_not_mem v hmem]
    simp [List.mem_append, hc, hck]

theorem loadLoop_msg_mono {α : Type}
    (files : List (String × Except String (DF α)))
    (acc : List (String × DF α) × List String) (msg : String)
    (h : msg ∈ acc.2) : msg ∈ (loadLoop acc files).2 := by
  induction files generalizing acc with
  | nil => exact h
  | cons g rest ih =>
    obtain ⟨gn, gv⟩ := g
    cases gv with
    | ok d =>
      simp only [loadLoop]
      exact ih _ (List.mem_append_left _ h)
    | error e =>
      simp only [loadLoop]
      exact ih _ (List.mem_append_left _ h)

theorem loadLoop_lookup_not_mem {α : Type}
    (files : List (String × Except String (DF α)))
    (acc : List (String × DF α) × List String) (n : String)
    (h : n ∉ files.map Prod.fst) :
    DF.lookup (loadLoop acc files).1 n = DF.lookup acc.1 n := by
  induction files generalizing acc with
  | nil => rfl
  | cons g rest ih =>
    obtain ⟨gn, gv⟩ := g
    simp only [List.map_cons, List.mem_cons, not_or] at h
    cases gv with
    | ok d =>
      simp only [loadLoop]
      rw [ih _ h.2]
      exact DF.lookup_setCol_ne acc.1 d h.1
    | error e =>
      simp only [loadLoop]
      exact ih _ h.2

theorem loadLoop_mem {α : Type}
    (files : List (String × Except String (DF α)))
    (acc : List (String × DF α) × List String) {n : String} {d : DF α}
    (h : (n, d) ∈ (loadLoop acc files).1) :
    (n, d) ∈ acc.1 ∨ (n, Except.ok d) ∈ files := by
  induction files generalizing acc with
  | nil => exact Or.inl h
  | cons g rest ih =>
    obtain ⟨gn, gv⟩ := g
    cases gv with
    | ok d' =>
      simp only [loadLoop] at h
      rcases ih _ h with h' | h'
      · rcases DF.mem_setCol h' with h'' | h''
        · exact Or.inl h''
        · injection h'' with h1 h2
          subst h1
          subst h2
          exact Or.inr (List.mem_cons_self _ _)
      · exact Or.inr (List.mem_cons_of_mem _ h')
    | error e =>
      simp only [loadLoop] at h
      rcases ih _ h with h' | h'
      · exact Or.inl h'
      · exact Or.inr (List.mem_cons_of_mem _ h')

theorem loadLoop_spec {α : Type} :
    ∀ files : List (String × Except String (DF α)),
    (files.map Prod.fst).Nodup →
    ∀ acc : List (String × DF α) × List String,
    (∀ f ∈ files, ∀ e, f.2 = Except.error e → f.1 ∉ DF.keys acc.1 →
       errorMsg f.1 e ∈ (loadLoop acc files).2 ∧
       DF.lookup (loadLoop acc files).1 f.1 = none) ∧
    (∀ f ∈ files, ∀ d, f.2 = Except.ok d →
       DF.lookup (loadLoop acc files).1 f.1 = some d ∧
       successMsg f.1 ∈ (loadLoop acc files).2) := by
  intro files
  induction files with
  | nil =>
    intro _ acc
    exact ⟨fun f hf => absurd hf (List.not_mem_nil f),
           fun f hf => absurd hf (List.not_mem_nil f)⟩
  | cons g rest ih =>
    intro hnodup acc
    obtain ⟨gn, gv⟩ := g
    simp only [List.map_cons, List.nodup_cons] at hnodup
    obtain ⟨hgn, hnodup'⟩ := hnodup
    cases gv with
    | ok d =>
      simp only [loadLoop]
      constructor
      · intro f hf e he hacc
        rcases List.mem_cons.mp hf with hf | hf
        · rw [hf] at he
          exact absurd he (fun he => Except.noConfusion he)
        · have hne : f.1 ≠ gn := fun hfn =>
            hgn (hfn ▸ List.mem_map_of_mem Prod.fst hf)
          have hacc' : f.1 ∉ DF.keys (DF.setCol acc.1 gn d) :=
            DF.not_mem_keys_setCol d hne hacc
          exact (ih hnodup' _).1 f hf e he hacc'
      · intro f hf d' hd'
        rcases List.mem_cons.mp hf with hf | hf
        · rw [hf] at hd' ⊢
          injection hd' with hd'
          subst hd'
          constructor
          · rw [loadLoop_lookup_not_mem rest _ gn hgn]
            exact DF.lookup_setCol_self acc.1 gn d
          · exact loadLoop_msg_mono rest _ _
              (List.mem_append_right _ (List.mem_singleton.mpr rfl))
        · exact (ih hnodup' _).2 f hf d' hd'
    | error e' =>
      simp only [loadLoop]
      constructor
      · intro f hf e he hacc
        rcases List.mem_cons.mp hf with hf | hf
        · rw [hf] at he hacc ⊢
          injection he with he
          subst he
          constructor
          · exact loadLoop_msg_mono rest _ _
              (List.mem_append_right _ (List.mem_singleton.mpr rfl))
          · rw [loadLoop_lookup_not_mem rest _ gn hgn]
            exact DF.lookup_eq_none_of_not_mem hacc
        · exact (ih hnodup' _).1 f hf e he hacc
      · intro f hf d' hd'
        rcases List.mem_cons.mp hf with hf | hf
        · rw [hf] at hd'
          exact absurd hd' (fun hd' => Except.noConfusion hd')
        · exact (ih hnodup' _).2 f hf d' hd'

theorem addZScoreAll_get (dss : List (DF ℝ)) (titles : List String)
    (dss' : List (DF ℝ)) (c : String)
    (h : addZScoreAll dss titles c = some dss') :
    dss'.length = dss.length ∧
    (∀ j df, dss.get? j = some df → j < titles.length →
      ∃ df', dss'.get? j = some df' ∧ addZScoreCol df c = some df') ∧
    (∀ j, titles.length ≤ j → dss'.get? j = dss.get? j) := by
  induction dss generalizing titles dss' with
  | nil =>
    rw [show addZScoreAll [] titles c = some [] from by
          cases titles <;> rfl] at h
    cases h
    exact ⟨rfl, fun j df hj _ => Option.noConfusion hj, fun j _ => rfl⟩
  | cons df0 rest ih =>
    cases titles with
    | nil =>
      rw [show addZScoreAll (df0 :: rest) [] c = some (df0 :: rest) from
            rfl] at h
      cases h
      exact ⟨rfl, fun j df _ hj => absurd hj (Nat.not_lt_zero j),
             fun j _ => rfl⟩
    | cons t trest =>
      simp only [addZScoreAll] at h
      cases h1 : addZScoreCol df0 c with
      | none =>
        rw [h1] at h
        exact Option.noConfusion h
      | some df0' =>
        cases h2 : addZScoreAll rest trest c with
        | none =>
          rw [h1, h2] at h
          exact Option.noConfusion h
        | some rest' =>
          rw [h1, h2] at h
          cases h
          obtain ⟨hlen, hget, hrest⟩ := ih trest rest' h2
          refine ⟨by simp [hlen], ?_, ?_⟩
          · intro j df hj hjt
            cases j with
            | zero =>
              rw [show List.get? (df0 :: rest) 0 = some df0 from rfl] at hj
              cases hj
              exact ⟨df0', rfl, h1⟩
            | succ j =>
              exact hget j df hj (Nat.lt_of_succ_lt_succ hjt)
          · intro j hjt
            cases j with
            | zero => exact absurd hjt (Nat.not_succ_le_zero _)
            | succ j =>
              exact hrest j (Nat.le_of_succ_le_succ hjt)

theorem selectOpt_mem (opts : List String) (i : Nat) (n : String)
    (h : selectOpt opts i = some n) : n ∈ opts := by
  cases opts with
  | nil =>
    rw [show selectOpt [] i = none from by
          unfold selectOpt
          cases i <;> rfl] at h
    exact Option.noConfusion h
  | cons a l =>
    unfold selectOpt at h
    cases hg : List.get? (a :: l) i with
    | some s =>
      rw [hg] at h
      cases h
      exact List.get?_mem hg
    | none =>
      rw [hg] at h
      simp only [List.head?] at h
      cases h
      exact List.mem_cons_self _ _

theorem mem_ite_singleton {γ : Type} (b : Bool) (x y : γ) :
    (y ∈ (if b then [x] else [])) ↔ (b = true ∧ y = x) := by
  cases b <;> simp

theorem sublist_ite_cons {γ : Type} (b : Bool) (x : γ) (l₁ l₂ : List γ)
    (h : l₁.Sublist l₂) :
    ((if b then [x] else []) ++ l₁).Sublist (x :: l₂) := by
  cases b
  · simpa using List.Sublist.cons x h
  · simpa using List.Sublist.cons₂ x h

theorem sublist_ite_singleton {γ : Type} (b : Bool) (x : γ) :
    (if b then [x] else []).Sublist [x] := by
  cases b
  · simp
  · simp

end ModelLemmas

section Claims

/-- C1: Outlier clipping is a bounded value clamp.  Both for the app's
"Clip Outliers" handler and for the library's `clip_outliers`, every row `v`
of a selected column ends up as `min (max v min_val) max_val`, and a value
already inside `[min_val, max_val]` is left unchanged. -/
theorem C1_clip_is_bounded_clamp :
    (∀ (df df' : DF ℚ) (c : String) (lo hi : ℚ),
       appClip df c lo hi = some df' →
       ∀ s, DF.lookup df c = some s →
         ∃ s', DF.lookup df' c = some s' ∧ s'.length = s.length ∧
           ∀ i v, s.get? i = some v → s'.get? i = some (min (max v lo) hi)) ∧
    (∀ (df df' : DF ℚ) (cols : List String) (ranges : List (ℚ × ℚ)),
       (DF.keys df).Nodup → cols.Nodup →
       clip_outliers df cols ranges = some df' →
       ∀ c lo hi, (c, (lo, hi)) ∈ cols.zip ranges →
         ∃ s s', DF.lookup df c = some s ∧ DF.lookup df' c = some s' ∧
           s'.length = s.length ∧
           ∀ i v, s.get? i = some v → s'.get? i = some (min (max v lo) hi)) ∧
    (∀ lo hi v : ℚ, lo ≤ v → v ≤ hi → pandasClipVal lo hi v = v) := by
  refine ⟨?_, ?_, fun lo hi v h1 h2 => pandasClipVal_of_mem lo hi v h1 h2⟩
  · intro df df' c lo hi happ s hs
    unfold appClip clipAssign at happ
    rw [hs] at happ
    cases happ
    refine ⟨Series.clip s lo hi, DF.lookup_setCol_self df c _,
      Series.clip_length s lo hi, ?_⟩
    intro i v hv
    rw [Series.clip_get, hv]
    simp only [Option.map_some']
    rw [pandasClipVal_eq_clamp]
  · intro df df' cols ranges hnod hcols h c lo hi hpair
    obtain ⟨P1, _, _⟩ := clip_outliers_spec df df' cols ranges hnod hcols h
    obtain ⟨s, hs1, hs2⟩ := P1 c lo hi hpair
    refine ⟨s, Series.clip s lo hi, hs1, hs2, Series.clip_length s lo hi, ?_⟩
    intro i v hv
    rw [Series.clip_get, hv]
    simp only [Option.map_some']
    rw [pandasClipVal_eq_clamp]

/-- Witness for C1 at a concrete input: clipping `[5, -3, 10]` to `[0, 7]`. -/
theorem C1_clip_is_bounded_clamp_witness :
    ∃ s', DF.lookup [("x", [(5 : ℚ), 0, 7])] "x" = some s' ∧
      s'.length = ([(5 : ℚ), -3, 10] : Series ℚ).length ∧
      ∀ i v, ([(5 : ℚ), -3, 10] : Series ℚ).get? i = some v →
        s'.get? i = some (min (max v 0) 7) :=
  C1_clip_is_bounded_clamp.1 [("x", [(5 : ℚ), -3, 10])]
    [("x", [(5 : ℚ), 0, 7])] "x" 0 7 (by decide) [(5 : ℚ), -3, 10] (by decide)

/-- C4: Clipping is idempotent: clipping a column twice with the same bounds
equals clipping it once, at the series level, for the app's handler, and for
a `clip_outliers` call on one column/range pair. -/
theorem C4_clip_idempotent :
    (∀ (s : Series ℚ) (lo hi : ℚ),
       Series.clip (Series.clip s lo hi) lo hi = Series.clip s lo hi) ∧
    (∀ (df : DF ℚ) (c : String) (lo hi : ℚ),
       (appClip df c lo hi).bind (fun d => appClip d c lo hi) =
         appClip df c lo hi) ∧
    (∀ (df : DF ℚ) (c : String) (lo hi : ℚ),
       (clip_outliers df [c] [(lo, hi)]).bind
           (fun d => clip_outliers d [c] [(lo, hi)]) =
         clip_outliers df [c] [(lo, hi)]) := by
  have happ : ∀ (df : DF ℚ) (c : String) (lo hi : ℚ),
      (appClip df c lo hi).bind (fun d => appClip d c lo hi) =
        appClip df c lo hi := by
    intro df c lo hi
    cases hlk : DF.lookup df c with
    | none =>
      rw [show appClip df c lo hi = none from by
            unfold appClip clipAssign
            rw [hlk]]
      rfl
    | some s =>
      rw [show appClip df c lo hi =
            some (DF.setCol df c (Series.clip s lo hi)) from by
            unfold appClip clipAssign
            rw [hlk]]
      show appClip (DF.setCol df c (Series.clip s lo hi)) c lo hi =
        some (DF.setCol df c (Series.clip s lo hi))
      unfold appClip clipAssign
      simp only [DF.lookup_setCol_self]
      rw [Series.clip_idem, DF.setCol_setCol]
  refine ⟨fun s lo hi => Series.clip_idem s lo hi, happ, ?_⟩
  intro df c lo hi
  have e : ∀ d : DF ℚ, clip_outliers d [c] [(lo, hi)] = appClip d c lo hi :=
    fun d => rfl
  simp only [e]
  exact happ df c lo hi

/-- C8: `clip_outliers` mutates its argument in place and returns the very
same object; the key set is unchanged, unlisted columns are untouched, and
every column keeps its row count. -/
theorem C8_clip_outliers_in_place :
    ∀ (h : Heap ℚ) (r : Nat) (cols : List String) (ranges : List (ℚ × ℚ))
      (h' : Heap ℚ) (r' : Nat),
      clip_outliersRef h r cols ranges = some (h', r') →
      r' = r ∧
      (∀ r'', r'' ≠ r → h' r'' = h r'') ∧
      (∃ df', clip_outliers (h r) cols ranges = some df' ∧ h' r = df') ∧
      DF.keys (h' r) = DF.keys (h r) ∧
      (∀ c, c ∉ cols → DF.lookup (h' r) c = DF.lookup (h r) c) ∧
      (∀ c s s', DF.lookup (h r) c = some s → DF.lookup (h' r) c = some s' →
        s'.length = s.length) := by
  intro h r cols ranges h' r' heq
  unfold clip_outliersRef at heq
  cases hco : clip_outliers (h r) cols ranges with
  | none =>
    rw [hco] at heq
    exact Option.noConfusion heq
  | some df' =>
    rw [hco] at heq
    injection heq with heq
    injection heq with heq1 heq2
    have hpt : ∀ x, h' x = if x = r then df' else h x := by
      intro x
      rw [← heq1]
    have hr : h' r = df' := by
      rw [hpt r, if_pos rfl]
    refine ⟨heq2.symm, ?_, ⟨df', rfl, hr⟩, ?_, ?_, ?_⟩
    · intro r'' hne
      rw [hpt r'', if_neg hne]
    · rw [hr]
      exact foldl_clipStep_keys _ _ _ hco
    · intro c hc
      rw [hr]
      exact foldl_clipStep_not_mem _ _ _ hco c
        (fun hmem => hc ((map_fst_zip_sublist cols ranges).subset hmem))
    · intro c s s' hs hs'
      rw [hr] at hs'
      exact foldl_clipStep_length _ _ _ hco c s s' hs hs'

/-- Witness for C8 at a concrete heap: clipping "x" of object 0 to `[0, 3]`. -/
theorem C8_clip_outliers_in_place_witness :
    (0 : Nat) = 0 ∧
    (∀ r'', r'' ≠ 0 → heapW' r'' = heapW r'') ∧
    (∃ df', clip_outliers (heapW 0) ["x"] [((0 : ℚ), 3)] = some df' ∧
        heapW' 0 = df') ∧
    DF.keys (heapW' 0) = DF.keys (heapW 0) ∧
    (∀ c, c ∉ ["x"] → DF.lookup (heapW' 0) c = DF.lookup (heapW 0) c) ∧
    (∀ c s s', DF.lookup (heapW 0) c = some s →
        DF.lookup (heapW' 0) c = some s' → s'.length = s.length) :=
  C8_clip_outliers_in_place heapW 0 ["x"] [((0 : ℚ), 3)] heapW' 0 rfl

/-- C9: with mismatched `columns` and `valid_range` lengths, `zip` silently
truncates: the call behaves exactly like the call on the first
`min (len columns) (len valid_range)` pairs, it does not fail because of
the mismatch, and the leftover listed columns are untouched. -/
theorem C9_zip_truncation :
    ∀ (df : DF ℚ) (cols : List String) (ranges : List (ℚ × ℚ)),
      clip_outliers df cols ranges =
        clip_outliers df (cols.take (min cols.length ranges.length))
          (ranges.take (min cols.length ranges.length)) ∧
      ((∀ c ∈ cols.take (min cols.length ranges.length), c ∈ DF.keys df) →
        ∃ df', clip_outliers df cols ranges = some df') ∧
      (∀ df', clip_outliers df cols ranges = some df' →
        ∀ c, c ∈ cols.drop (min cols.length ranges.length) →
          c ∉ cols.take (min cols.length ranges.length) →
          DF.lookup df' c = DF.lookup df c) := by
  intro df cols ranges
  have hzip : cols.zip ranges =
      (cols.take (min cols.length ranges.length)).zip
        (ranges.take (min cols.length ranges.length)) :=
    zip_eq_zip_take cols ranges
  have hmapfst : ((cols.take (min cols.length ranges.length)).zip
      (ranges.take (min cols.length ranges.length))).map Prod.fst =
      cols.take (min cols.length ranges.length) := by
    apply List.map_fst_zip
    rw [List.length_take, List.length_take]
    omega
  refine ⟨?_, ?_, ?_⟩
  · unfold clip_outliers
    rw [hzip]
  · intro hkeys
    apply foldl_clipStep_isSome (cols.zip ranges) df
    intro c hc
    apply hkeys
    rw [hzip, hmapfst] at hc
    exact hc
  · intro df' h c hdrop htake
    apply foldl_clipStep_not_mem _ _ _ h
    rw [hzip, hmapfst]
    exact htake

/-- Witness for C9 at a concrete input: two columns, one range. -/
theorem C9_zip_truncation_witness :
    clip_outliers [("x", [(5 : ℚ)]), ("y", [(7 : ℚ)])] ["x", "y"]
        [((0 : ℚ), 3)] =
      clip_outliers [("x", [(5 : ℚ)]), ("y", [(7 : ℚ)])] ["x"]
        [((0 : ℚ), 3)] ∧
    (∃ df', clip_outliers [("x", [(5 : ℚ)]), ("y", [(7 : ℚ)])] ["x", "y"]
        [((0 : ℚ), 3)] = some df') ∧
    DF.lookup [("x", [(3 : ℚ)]), ("y", [(7 : ℚ)])] "y" =
      DF.lookup [("x", [(5 : ℚ)]), ("y", [(7 : ℚ)])] "y" := by
  obtain ⟨h1, h2, h3⟩ := C9_zip_truncation
    [("x", [(5 : ℚ)]), ("y", [(7 : ℚ)])] ["x", "y"] [((0 : ℚ), 3)]
  exact ⟨h1, h2 (by decide),
    h3 [("x", [(3 : ℚ)]), ("y", [(7 : ℚ)])] (by decide) "y" (by decide)
      (by decide)⟩

/-- C3: file parsing errors are caught and isolated: a file whose parse
raises gets its error message displayed and is absent from the `datasets`
dict, while every file that parses successfully is still added. -/
theorem C3_parse_errors_isolated :
    ∀ files : List (String × Except String (DF ℚ)),
      (files.map Prod.fst).Nodup →
      (∀ f ∈ files, ∀ e, f.2 = Except.error e →
         errorMsg f.1 e ∈ (loadDatasets files).2 ∧
         DF.lookup (loadDatasets files).1 f.1 = none) ∧
      (∀ f ∈ files, ∀ d, f.2 = Except.ok d →
         DF.lookup (loadDatasets files).1 f.1 = some d ∧
         successMsg f.1 ∈ (loadDatasets files).2) := by
  intro files hnodup
  have h := loadLoop_spec files hnodup ([], [])
  refine ⟨?_, h.2⟩
  intro f hf e he
  exact h.1 f hf e he (by simp [DF.keys])

/-- Witness for C3: one good file and one failing file. -/
theorem C3_parse_errors_isolated_witness :
    errorMsg "b.csv" "boom" ∈
      (loadDatasets [("a.csv", Except.ok [("x", [(1 : ℚ)])]),
        ("b.csv", Except.error "boom")]).2 ∧
    DF.lookup (loadDatasets [("a.csv", Except.ok [("x", [(1 : ℚ)])]),
        ("b.csv", Except.error "boom")]).1 "b.csv" = none ∧
    DF.lookup (loadDatasets [("a.csv", Except.ok [("x", [(1 : ℚ)])]),
        ("b.csv", Except.error "boom")]).1 "a.csv" =
      some [("x", [(1 : ℚ)])] := by
  obtain ⟨herr, hok⟩ := C3_parse_errors_isolated
    [("a.csv", Except.ok [("x", [(1 : ℚ)])]), ("b.csv", Except.error "boom")]
    (by decide)
  obtain ⟨h1, h2⟩ := herr ("b.csv", Except.error "boom")
    (List.mem_cons_of_mem _ (List.mem_cons_self _ _)) "boom" rfl
  obtain ⟨h3, _⟩ := hok ("a.csv", Except.ok [("x", [(1 : ℚ)])])
    (List.mem_cons_self _ _) [("x", [(1 : ℚ)])] rfl
  exact ⟨h1, h2, h3⟩

/-- C5: the chart sections appear in the fixed source order, and a chart is
rendered if and only if every one of its column-selection widgets holds a
truthy value (so an empty multiselect or empty selection renders nothing). -/
theorem C5_charts_fixed_order_and_guards :
    ∀ sel : AppSelections,
      (renderedCharts sel).Sublist chartOrder ∧
      (∀ ch : Chart,
        ch ∈ renderedCharts sel ↔ widgetsTruthy sel ch = true) := by
  intro sel
  constructor
  · unfold renderedCharts chartOrder
    simp only [List.append_assoc]
    apply sublist_ite_cons
    apply sublist_ite_cons
    apply sublist_ite_cons
    apply sublist_ite_cons
    apply sublist_ite_cons
    apply sublist_ite_cons
    apply sublist_ite_cons
    exact sublist_ite_singleton _ _
  · intro ch
    cases ch <;>
      simp [renderedCharts, widgetsTruthy, mem_ite_singleton, List.mem_append]

/-- C6: one run of the script is a single linear pipeline: the stages it
reaches form a sublist of upload → parse → select → clip → pick → render (so
control never moves back to an earlier stage), parsing happens exactly when
files were uploaded, a dataset is selected only from the successfully parsed
datasets, and clipping/rendering happen only after a dataset is selected. -/
theorem C6_linear_pipeline :
    ∀ inp : AppInput ℚ,
      (trace inp).Sublist pipelineOrder ∧
      (Stage.upload ∈ trace inp ↔ inp.files ≠ []) ∧
      (Stage.parse ∈ trace inp ↔ inp.files ≠ []) ∧
      (Stage.select ∈ trace inp →
        ∃ n, selectedName inp = some n ∧
          ∃ d, DF.lookup (loadDatasets inp.files).1 n = some d ∧
            (n, Except.ok d) ∈ inp.files) ∧
      (Stage.clip ∈ trace inp → Stage.select ∈ trace inp) ∧
      (Stage.render ∈ trace inp → Stage.select ∈ trace inp) := by
  intro inp
  by_cases hempty : inp.files.isEmpty
  · have htr : trace inp = [] := by
      unfold trace
      rw [if_pos hempty]
    have hfe : inp.files = [] := List.isEmpty_iff.mp hempty
    rw [htr, hfe]
    exact ⟨List.nil_sublist _, by simp, by simp, by simp, by simp, by simp⟩
  · have hne : inp.files ≠ [] := by
      intro hf
      rw [hf] at hempty
      exact hempty rfl
    have hselE : truthyStr (selectedName inp) = true →
        ∃ n, selectedName inp = some n ∧
          ∃ d, DF.lookup (loadDatasets inp.files).1 n = some d ∧
            (n, Except.ok d) ∈ inp.files := by
      intro ht
      cases hsn : selectedName inp with
      | none =>
        rw [hsn] at ht
        exact Bool.noConfusion ht
      | some n =>
        refine ⟨n, rfl, ?_⟩
        have hmem : n ∈ DF.keys (loadDatasets inp.files).1 :=
          selectOpt_mem _ _ _ hsn
        obtain ⟨d, hd⟩ := DF.lookup_isSome_of_mem hmem
        refine ⟨d, hd, ?_⟩
        rcases loadLoop_mem inp.files ([], []) (DF.mem_of_lookup hd) with
          h | h
        · exact absurd h (List.not_mem_nil _)
        · exact h
    have htr : trace inp = Stage.upload :: Stage.parse ::
        (if truthyStr (selectedName inp) then
          Stage.select ::
            ((if truthyStr inp.sel.outlierCol && inp.clipPressed then
                [Stage.clip] else []) ++
             [Stage.pick] ++
             (if (renderedCharts inp.sel).isEmpty then []
              else [Stage.render]))
        else []) := by
      unfold trace
      rw [if_neg hempty]
    rw [htr]
    by_cases hsel : truthyStr (selectedName inp) = true
    · rw [if_pos hsel]
      refine ⟨?_, by simp [hne], by simp [hne], fun _ => hselE hsel,
        by simp, by simp⟩
      unfold pipelineOrder
      apply List.Sublist.cons₂
      apply List.Sublist.cons₂
      apply List.Sublist.cons₂
      by_cases hclip : (truthyStr inp.sel.outlierCol && inp.clipPressed) = true
      · rw [if_pos hclip]
        by_cases hrend : (renderedCharts inp.sel).isEmpty = true
        · rw [if_pos hrend]
          decide
        · rw [if_neg hrend]
          decide
      · rw [if_neg hclip]
        by_cases hrend : (renderedCharts inp.sel).isEmpty = true
        · rw [if_pos hrend]
          decide
        · rw [if_neg hrend]
          decide
    · rw [if_neg hsel]
      refine ⟨?_, by simp [hne], by simp [hne], by simp, by simp, by simp⟩
      unfold pipelineOrder
      apply List.Sublist.cons₂
      apply List.Sublist.cons₂
      exact List.nil_sublist _

/-- Witness for C6: a concrete run with one parsed file and a selection. -/
theorem C6_linear_pipeline_witness :
    (trace inpW6).Sublist pipelineOrder ∧ inpW6.files ≠ [] ∧
    (∃ n, selectedName inpW6 = some n ∧
      ∃ d, DF.lookup (loadDatasets inpW6.files).1 n = some d ∧
        (n, Except.ok d) ∈ inpW6.files) := by
  obtain ⟨h1, h2, _, h4, _, _⟩ := C6_linear_pipeline inpW6
  exact ⟨h1, h2.mp (by decide), h4 (by decide)⟩

/-- The sum of squared deviations arithmetic for the concrete column
`[0, 0, 0, 2]`: its sample standard deviation is exactly 1. -/
theorem std_example : std [(0 : ℝ), 0, 0, 2] = 1 := by
  unfold std
  rw [show ((([(0 : ℝ), 0, 0, 2] : Series ℝ).map
      (fun v => (v - mean [(0 : ℝ), 0, 0, 2]) ^ 2)).sum /
      ((([(0 : ℝ), 0, 0, 2] : Series ℝ).length : ℝ) - 1)) = 1 from by
    rw [show mean [(0 : ℝ), 0, 0, 2] = 1 / 2 from by
      unfold mean
      norm_num [List.sum_cons, List.sum_nil]]
    norm_num [List.map_cons, List.map_nil, List.sum_cons, List.sum_nil]]
  exact Real.sqrt_one

/-- C2: Z-score computation is mean/std normalization: for a column with at
least two rows and non-zero standard deviation, every score produced by the
app's Z-Score Analysis and by `calculate_and_plot_z_scores` equals
`(value - mean) / std`. -/
theorem C2_zscore_mean_std :
    (∀ (df : DF ℝ) (c : String) (s : Series ℝ),
       DF.lookup df c = some s → 2 ≤ s.length → std s ≠ 0 →
       ∃ zs, appZScores df c = some zs ∧ zs.length = s.length ∧
         ∀ i v, s.get? i = some v →
           zs.get? i = some ((v - mean s) / std s)) ∧
    (∀ (dss dss' : List (DF ℝ)) (titles : List String) (c : String),
       calculate_and_plot_z_scores dss [c] titles = some dss' →
       ∀ j df, dss.get? j = some df → j < titles.length →
       ∀ s, DF.lookup df c = some s → 2 ≤ s.length → std s ≠ 0 →
         ∃ df' zs, dss'.get? j = some df' ∧
           DF.lookup df' (c ++ "_zscore") = some zs ∧ zs.length = s.length ∧
           ∀ i v, s.get? i = some v →
             zs.get? i = some ((v - mean s) / std s)) := by
  constructor
  · intro df c s hs _ _
    unfold appZScores
    rw [hs]
    refine ⟨zscoreSeries s, rfl, List.length_map _ _, ?_⟩
    intro i v hv
    unfold zscoreSeries
    rw [List.get?_map, hv]
    rfl
  · intro dss dss' titles c h j df hj hjt s hs hlen hstd
    unfold calculate_and_plot_z_scores at h
    cases haz : addZScoreAll dss titles c with
    | none =>
      rw [haz] at h
      exact Option.noConfusion h
    | some dss₁ =>
      rw [haz] at h
      cases h
      obtain ⟨_, hget, _⟩ := addZScoreAll_get dss titles dss' c haz
      obtain ⟨df', hdf', hcol⟩ := hget j df hj hjt
      unfold addZScoreCol at hcol
      rw [hs] at hcol
      cases hcol
      refine ⟨_, zscoreSeries s, hdf', DF.lookup_setCol_self df _ _,
        List.length_map _ _, ?_⟩
      intro i v hv
      unfold zscoreSeries
      rw [List.get?_map, hv]
      rfl

/-- Witness for C2 at the concrete column `[0, 0, 0, 2]` (std = 1). -/
theorem C2_zscore_mean_std_witness :
    ∃ zs, appZScores [("x", [(0 : ℝ), 0, 0, 2])] "x" = some zs ∧
      zs.length = ([(0 : ℝ), 0, 0, 2] : Series ℝ).length ∧
      ∀ i v, ([(0 : ℝ), 0, 0, 2] : Series ℝ).get? i = some v →
        zs.get? i = some ((v - mean [(0 : ℝ), 0, 0, 2]) /
          std [(0 : ℝ), 0, 0, 2]) :=
  C2_zscore_mean_std.1 [("x", [(0 : ℝ), 0, 0, 2])] "x" [(0 : ℝ), 0, 0, 2]
    (by simp [DF.lookup]) (by decide)
    (by rw [std_example]; exact one_ne_zero)

/-- C10 (amended): the two Z-score operations differ in their effect on the
data: `calculate_and_plot_z_scores` adds a `"{column}_zscore"` column to
every dataset that `zip(datasets, titles)` pairs with a title — the first
`min (len datasets) (len titles)` of them — mutating those DataFrames and
leaving datasets beyond the titles list untouched, whereas the app's Z-Score
Analysis leaves the selected dataset unchanged. -/
theorem C10_zscore_effects_differ :
    (∀ (dss dss' : List (DF ℝ)) (titles : List String) (c : String),
       calculate_and_plot_z_scores dss [c] titles = some dss' →
       dss'.length = dss.length ∧
       (∀ j df, dss.get? j = some df → j < titles.length →
         ∃ df' s, dss'.get? j = some df' ∧ DF.lookup df c = some s ∧
           DF.lookup df' (c ++ "_zscore") = some (zscoreSeries s) ∧
           (c ++ "_zscore" ∉ DF.keys df →
             DF.keys df' = DF.keys df ++ [c ++ "_zscore"])) ∧
       (∀ j, titles.length ≤ j → dss'.get? j = dss.get? j)) ∧
    (∀ (df : DF ℝ) (c : String), (appZScoreBlock df c).1 = df) := by
  constructor
  · intro dss dss' titles c h
    unfold calculate_and_plot_z_scores at h
    cases haz : addZScoreAll dss titles c with
    | none =>
      rw [haz] at h
      exact Option.noConfusion h
    | some dss₁ =>
      rw [haz] at h
      cases h
      obtain ⟨hlen, hget, hrest⟩ := addZScoreAll_get dss titles dss' c haz
      refine ⟨hlen, ?_, hrest⟩
      intro j df hj hjt
      obtain ⟨df', hdf', hcol⟩ := hget j df hj hjt
      unfold addZScoreCol at hcol
      cases hs : DF.lookup df c with
      | none =>
        rw [hs] at hcol
        exact Option.noConfusion hcol
      | some s =>
        rw [hs] at hcol
        cases hcol
        exact ⟨_, s, hdf', rfl, DF.lookup_setCol_self df _ _,
          fun hnm => DF.keys_setCol_of_not_mem _ hnm⟩
  · intro df c
    rfl

/-- Counterexample to C10 as stated: with two datasets and a single title,
the call completes, yet the second dataset is returned verbatim and carries
no `"c_zscore"` column, because `zip(datasets, titles)` stops after the
first pair. -/
theorem C10_zscore_effects_differ_counterexample :
    calculate_and_plot_z_scores [[("c", [(0 : ℝ)])], [("c", [(0 : ℝ)])]]
        ["c"] ["t"] =
      some [DF.setCol [("c", [(0 : ℝ)])] ("c" ++ "_zscore")
              (zscoreSeries [(0 : ℝ)]),
            [("c", [(0 : ℝ)])]] ∧
    DF.lookup [("c", [(0 : ℝ)])] ("c" ++ "_zscore") = none :=
  ⟨rfl, rfl⟩

/-- Witness for C10 at a concrete one-dataset, one-title, one-column call. -/
theorem C10_zscore_effects_differ_witness :
    (∃ df' s,
      ([DF.setCol [("x", [(0 : ℝ), 0, 0, 2])] ("x" ++ "_zscore")
          (zscoreSeries [(0 : ℝ), 0, 0, 2])] : List (DF ℝ)).get? 0 =
        some df' ∧
      DF.lookup [("x", [(0 : ℝ), 0, 0, 2])] "x" = some s ∧
      DF.lookup df' ("x" ++ "_zscore") = some (zscoreSeries s) ∧
      ("x" ++ "_zscore" ∉ DF.keys [("x", [(0 : ℝ), 0, 0, 2])] →
        DF.keys df' =
          DF.keys [("x", [(0 : ℝ), 0, 0, 2])] ++ ["x" ++ "_zscore"])) ∧
    (appZScoreBlock [("x", [(0 : ℝ), 0, 0, 2])] "x").1 =
      [("x", [(0 : ℝ), 0, 0, 2])] := by
  refine ⟨?_, C10_zscore_effects_differ.2 [("x", [(0 : ℝ), 0, 0, 2])] "x"⟩
  exact (C10_zscore_effects_differ.1 [[("x", [(0 : ℝ), 0, 0, 2])]]
    [DF.setCol [("x", [(0 : ℝ), 0, 0, 2])] ("x" ++ "_zscore")
      (zscoreSeries [(0 : ℝ), 0, 0, 2])] ["t"] "x" rfl).2.1 0
    [("x", [(0 : ℝ), 0, 0, 2])] rfl (by decide)

/-- C7: nothing is cached across reruns, so a rerun is a pure function of the
uploaded file contents and widget selections: two runs on equal inputs agree
on every computed artifact, whatever the previous run's output was. -/
theorem C7_rerun_deterministic :
    ∀ (prev₁ prev₂ : Option AppOutput) (i₁ i₂ : AppInput ℝ), i₁ = i₂ →
      rerunApp prev₁ i₁ = rerunApp prev₂ i₂ ∧
      (rerunApp prev₁ i₁).datasets = (rerunApp prev₂ i₂).datasets ∧
      (rerunApp prev₁ i₁).finalDataset = (rerunApp prev₂ i₂).finalDataset ∧
      (rerunApp prev₁ i₁).summary = (rerunApp prev₂ i₂).summary ∧
      (rerunApp prev₁ i₁).zScores = (rerunApp prev₂ i₂).zScores ∧
      (rerunApp prev₁ i₁).corr = (rerunApp prev₂ i₂).corr := by
  intro prev₁ prev₂ i₁ i₂ h
  subst h
  exact ⟨rfl, rfl, rfl, rfl, rfl, rfl⟩

/-- Witness for C7: a rerun after a stale output equals a fresh run. -/
theorem C7_rerun_deterministic_witness :
    rerunApp none inpW7 = rerunApp (some outW) inpW7 ∧
    (rerunApp none inpW7).datasets = (rerunApp (some outW) inpW7).datasets :=
  ⟨(C7_rerun_deterministic none (some outW) inpW7 inpW7 rfl).1,
   (C7_rerun_deterministic none (some outW) inpW7 inpW7 rfl).2.1⟩

end Claims

end KAIM
